import Mathlib

/-!
Verification development for the agent-composition and streaming-conversation
core of the personal-assistant-army repository.

The embedding translates:
* `src/backend/services/AgentFactory.ts` (recursive agent building),
* `src/backend/repositories/postgres/PostgresAgentRepository.ts`,
  `PostgresMcpServerRepository.ts`, `PostgresConversationRepository.ts`
  (data access, modelled as pure queries over an explicit store),
* `src/backend/handlers/chat.ts` (stream event translation),
* the `DatabaseSession` conversation adapter (both the plain version in
  `src/backend/services/DatabaseSession.ts` and the structured-payload
  version shipped among the unnamed sources).

JavaScript `Set` values are modelled as lists with membership, thrown
exceptions as `Except`, `Date`/`Intl.DateTimeFormat` as an explicit clock
parameter producing localized date parts that are rendered with the
`en-US` option set used by the source.
-/

/-! ## Decimal rendering (model of the digit strings `Intl`/`toString` emit) -/

/-- Numeric value of a decimal digit character; 48 is the code of the zero digit. -/
def charToDigit (c : Char) : Nat := c.toNat - 48

/-- Fuel-driven most-significant-first decimal digit rendering. -/
def decDigitsAux : Nat → Nat → List Char
  | 0, _ => []
  | fuel + 1, n =>
    if n < 10 then [Nat.digitChar n]
    else decDigitsAux fuel (n / 10) ++ [Nat.digitChar (n % 10)]

/-- Standard decimal rendering of a natural number as a character list. -/
def decRepr (n : Nat) : List Char := decDigitsAux (n + 1) n

/-- Read a digit string back as a number (left fold, most significant first). -/
def decVal (l : List Char) : Nat := l.foldl (fun a c => 10 * a + charToDigit c) 0

/-- The ten decimal digit characters. -/
def decDigitChars : List Char := ['0', '1', '2', '3', '4', '5', '6', '7', '8', '9']

/-! ## Localized date parts and the `en-US` rendering used by `AgentFactory`

`AgentFactory.createAgentRecursive` formats `new Date()` with
`Intl.DateTimeFormat('en-US', { timeZone, weekday: 'long', year: 'numeric',
month: 'long', day: 'numeric', hour: '2-digit', minute: '2-digit',
timeZoneName: 'short' })`.  The platform conversion of an instant into parts
of a given timezone is abstracted as a clock `String → DateParts`; the
rendering of those parts below follows the `en-US` output shape
`Weekday, Month D, YYYY at hh:mm AM TZ`. -/

/-- Localized calendar/time components handed back by the platform clock. -/
structure DateParts where
  weekday : Fin 7
  month : Fin 12
  day : Nat
  year : Nat
  hour : Nat
  minute : Nat
  tzName : String
  deriving DecidableEq

/-- English weekday names (the `weekday: 'long'` option). -/
def weekdayChars (w : Fin 7) : List Char :=
  (match w.1 with
    | 0 => "Sunday"
    | 1 => "Monday"
    | 2 => "Tuesday"
    | 3 => "Wednesday"
    | 4 => "Thursday"
    | 5 => "Friday"
    | _ => "Saturday").data

/-- English month names (the `month: 'long'` option). -/
def monthChars (m : Fin 12) : List Char :=
  (match m.1 with
    | 0 => "January"
    | 1 => "February"
    | 2 => "March"
    | 3 => "April"
    | 4 => "May"
    | 5 => "June"
    | 6 => "July"
    | 7 => "August"
    | 8 => "September"
    | 9 => "October"
    | 10 => "November"
    | _ => "December").data

/-- Two-digit zero-padded rendering (the `'2-digit'` option). -/
def pad2 (n : Nat) : List Char := if n < 10 then '0' :: decRepr n else decRepr n

/-- Hour on the 12-hour clock used by `en-US`. -/
def hour12 (h : Nat) : Nat := if h % 12 = 0 then 12 else h % 12

/-- Morning/afternoon marker of the `en-US` rendering. -/
def amPmChars (h : Nat) : List Char := if h % 24 < 12 then ['A', 'M'] else ['P', 'M']

/-- Clock-and-zone tail of the rendered date: `at hh:mm AM TZ`. -/
def timeTailChars (p : DateParts) : List Char :=
  'a' :: 't' :: ' ' :: pad2 (hour12 p.hour) ++ ':' :: pad2 (p.minute % 60)
    ++ ' ' :: amPmChars p.hour ++ ' ' :: p.tzName.data

/-- Full `en-US` rendering `Weekday, Month D, YYYY at hh:mm AM TZ` as characters. -/
def formatChars (p : DateParts) : List Char :=
  weekdayChars p.weekday ++ ',' :: ' ' ::
    (monthChars p.month ++ ' ' ::
      (decRepr p.day ++ ',' :: ' ' ::
        (decRepr p.year ++ ' ' :: timeTailChars p)))

/-- The formatted date string appended to the instructions on every build. -/
def formatDateTime (p : DateParts) : String := String.mk (formatChars p)

/-! ## The stored data (tables read by the repositories) -/

/-- One row of the `agents` table (the fields `AgentFactory` consumes). -/
structure AgentRow where
  id : Nat
  user_id : Nat
  slug : String
  name : String
  system_prompt : String
  deriving DecidableEq

/-- One row of the `mcp_servers` table (the fields the factory consumes). -/
structure McpServerRow where
  id : Nat
  user_id : Nat
  name : String
  url : String
  headers : Option (List (String × String))
  deriving DecidableEq

/-- The relational state read during a build: agents, the three tool
join tables, the handoff edge table and the user's MCP servers. -/
structure Store where
  agents : List AgentRow
  builtInEdges : List (Nat × String)
  mcpEdges : List (Nat × Nat)
  handoffEdges : List (Nat × Nat)
  agentToolEdges : List (Nat × Nat)
  mcpServers : List McpServerRow
  deriving DecidableEq

/-- Caller context: `context.id` plus the optional `timezone` field read as
`(context as any).timezone` by the factory. -/
structure UserCtx where
  id : Nat
  timezone : Option String
  deriving DecidableEq

/-- Timezone selection `(context as any).timezone || 'UTC'`; the JavaScript
`||` also replaces an empty string by the default. -/
def userTimezone (ctx : UserCtx) : String :=
  match ctx.timezone with
  | none => "UTC"
  | some t => if t = "" then "UTC" else t

/-! ## Repository queries (PostgresAgentRepository / PostgresMcpServerRepository)

Each SQL query is translated into a pure function on the `Store`; `ORDER BY
a.name` is modelled by an insertion sort on the name column. -/

/-- `SELECT * FROM agents WHERE user_id = $userId AND slug = $slug` (first row). -/
def findBySlug (s : Store) (userId : Nat) (slug : String) : Option AgentRow :=
  s.agents.find? (fun r => decide (r.user_id = userId ∧ r.slug = slug))

/-- Join of `agent_built_in_tools` with `built_in_tools`, projected to `type`. -/
def listBuiltInTools (s : Store) (agentId : Nat) : List String :=
  (s.builtInEdges.filter (fun e => decide (e.1 = agentId))).map (fun e => e.2)

/-- `SELECT mcp_server_id FROM agent_mcp_tools WHERE agent_id = $agentId`. -/
def listMcpTools (s : Store) (agentId : Nat) : List Nat :=
  (s.mcpEdges.filter (fun e => decide (e.1 = agentId))).map (fun e => e.2)

/-- Lexicographic character-list comparison (the collation model used for
`ORDER BY a.name`). -/
def charListLe : List Char → List Char → Bool
  | [], _ => true
  | _ :: _, [] => false
  | c1 :: t1, c2 :: t2 =>
    if c1.toNat < c2.toNat then true
    else if c2.toNat < c1.toNat then false
    else charListLe t1 t2

/-- Lexicographic string comparison used by the name sort. -/
def strLe (a b : String) : Bool := charListLe a.data b.data

/-- Insert into a list sorted by agent name (model of `ORDER BY a.name`). -/
def insertByName (a : AgentRow) : List AgentRow → List AgentRow
  | [] => [a]
  | b :: t => if strLe a.name b.name then a :: b :: t else b :: insertByName a t

/-- Insertion sort by agent name (model of `ORDER BY a.name`). -/
def sortByName : List AgentRow → List AgentRow
  | [] => []
  | a :: t => insertByName a (sortByName t)

/-- Join of `agent_handoffs` with `agents`, ordered by name
(`PostgresAgentRepository.listHandoffs`). -/
def listHandoffs (s : Store) (fromAgentId : Nat) : List AgentRow :=
  sortByName ((s.handoffEdges.filter (fun e => decide (e.1 = fromAgentId))).filterMap
    (fun e => s.agents.find? (fun r => decide (r.id = e.2))))

/-- Join of `agent_agent_tools` with `agents`, ordered by name
(`PostgresAgentRepository.listAgentTools`). -/
def listAgentTools (s : Store) (agentId : Nat) : List AgentRow :=
  sortByName ((s.agentToolEdges.filter (fun e => decide (e.1 = agentId))).filterMap
    (fun e => s.agents.find? (fun r => decide (r.id = e.2))))

/-- `SELECT * FROM mcp_servers WHERE user_id = $userId`
(`PostgresMcpServerRepository.listByUser`; the `created_at DESC` order is
the stored order of the model). -/
def listMcpServersByUser (s : Store) (userId : Nat) : List McpServerRow :=
  s.mcpServers.filter (fun srv => decide (srv.user_id = userId))

/-! ## Executable agents and build errors -/

/-- A concrete tool attached to a built agent: `webSearchTool()` or
`hostedMcpTool({serverUrl, serverLabel, headers, requireApproval: "never"})`. -/
inductive AgentTool where
  | webSearch : AgentTool
  | hostedMcp (serverUrl serverLabel : String)
      (headers : Option (List (String × String))) : AgentTool
  deriving DecidableEq

/-- The `Agent` instance built by the factory: name, augmented instructions,
the hard-coded model string, concrete tools and recursively built handoffs. -/
inductive ExecAgent where
  | mk (name instructions model : String) (tools : List AgentTool)
      (handoffs : List ExecAgent) : ExecAgent

/-- Name of a built agent. -/
def ExecAgent.name : ExecAgent → String
  | .mk n _ _ _ _ => n

/-- Final instructions of a built agent. -/
def ExecAgent.instructions : ExecAgent → String
  | .mk _ i _ _ _ => i

/-- Model string of a built agent. -/
def ExecAgent.modelName : ExecAgent → String
  | .mk _ _ m _ _ => m

/-- Concrete tool list of a built agent. -/
def ExecAgent.tools : ExecAgent → List AgentTool
  | .mk _ _ _ ts _ => ts

/-- Recursively built handoff sub-agents of a built agent. -/
def ExecAgent.handoffs : ExecAgent → List ExecAgent
  | .mk _ _ _ _ hs => hs

mutual

/-- Height of a built agent tree (root counts one). -/
def ExecAgent.height : ExecAgent → Nat
  | .mk _ _ _ _ hs => heightList hs + 1

/-- Maximum height over a list of built agents. -/
def heightList : List ExecAgent → Nat
  | [] => 0
  | a :: t => max a.height (heightList t)

end

/-- The exceptions thrown by `createAgentRecursive`: the circular-dependency,
not-found and unauthorized `Error` messages. -/
inductive BuildError where
  | circular (slug : String) : BuildError
  | notFound (slug : String) : BuildError
  | unauthorized : BuildError
  deriving DecidableEq

/-- Resolution of the MCP tool references against the user's server list:
`userMcpTools.find(server => server.id === mcpTool)`, skipping (with a
warning) references with no matching server config. -/
def resolveMcpTools (mcpTools : List Nat) (userMcpTools : List McpServerRow) :
    List AgentTool :=
  mcpTools.filterMap (fun tid =>
    (userMcpTools.find? (fun srv => decide (srv.id = tid))).map
      (fun cfg => AgentTool.hostedMcp cfg.url cfg.name cfg.headers))

/-- The decreasing measure of the recursive build: rows whose slug is not yet
visited.  Used by the termination argument of `createAgentRecursive`. -/
def unvisitedCount (s : Store) (visited : List String) : Nat :=
  (s.agents.filter (fun r => decide (r.slug ∉ visited))).length

theorem length_filter_le_of_imp {α : Type} (l : List α) (p q : α → Bool)
    (h : ∀ a ∈ l, p a = true → q a = true) :
    (l.filter p).length ≤ (l.filter q).length := by
  induction l with
  | nil => simp
  | cons a t ih =>
    have ht : ∀ b ∈ t, p b = true → q b = true :=
      fun b hb => h b (List.mem_cons_of_mem _ hb)
    cases hp : p a with
    | true =>
      have hq : q a = true := h a (List.mem_cons_self _ _) hp
      simp only [List.filter_cons, hp, hq, if_true, List.length_cons]
      exact Nat.succ_le_succ (ih ht)
    | false =>
      cases hq : q a with
      | true =>
        simp only [List.filter_cons, hp, hq, if_true, if_false, List.length_cons]
        exact Nat.le_succ_of_le (ih ht)
      | false =>
        simp only [List.filter_cons, hp, hq, if_false]
        exact ih ht

theorem length_filter_lt_of_imp {α : Type} (l : List α) (p q : α → Bool)
    (h : ∀ a ∈ l, p a = true → q a = true)
    (hw : ∃ a, a ∈ l ∧ q a = true ∧ p a = false) :
    (l.filter p).length < (l.filter q).length := by
  induction l with
  | nil =>
    rcases hw with ⟨a, ha, _⟩
    simp at ha
  | cons a t ih =>
    have ht : ∀ b ∈ t, p b = true → q b = true :=
      fun b hb => h b (List.mem_cons_of_mem _ hb)
    rcases hw with ⟨w, hwmem, hwq, hwp⟩
    rcases List.mem_cons.mp hwmem with rfl | hwt
    · simp only [List.filter_cons, hwp, hwq, if_true, if_false, List.length_cons]
      exact Nat.lt_succ_of_le (length_filter_le_of_imp t p q ht)
    · have hlt := ih ht ⟨w, hwt, hwq, hwp⟩
      cases hp : p a with
      | true =>
        have hq : q a = true := h a (List.mem_cons_self _ _) hp
        simp only [List.filter_cons, hp, hq, if_true, List.length_cons]
        exact Nat.succ_lt_succ hlt
      | false =>
        cases hq : q a with
        | true =>
          simp only [List.filter_cons, hp, hq, if_true, if_false, List.length_cons]
          exact Nat.lt_succ_of_lt hlt
        | false =>
          simp only [List.filter_cons, hp, hq, if_false]
          exact hlt

theorem unvisitedCount_cons_lt (s : Store) (x : String) (visited : List String)
    (hx : x ∉ visited) (hmem : ∃ r, r ∈ s.agents ∧ r.slug = x) :
    unvisitedCount s (x :: visited) < unvisitedCount s visited := by
  apply length_filter_lt_of_imp
  · intro a _ hp
    have hnot : a.slug ∉ x :: visited := of_decide_eq_true hp
    exact decide_eq_true (fun hm => hnot (List.mem_cons_of_mem _ hm))
  · rcases hmem with ⟨r, hr, hslug⟩
    refine ⟨r, hr, decide_eq_true (hslug ▸ hx), ?_⟩
    have : r.slug ∈ x :: visited := by rw [hslug]; exact List.mem_cons_self _ _
    simp [this]

/-- A row found by `findBySlug` is in the table, belongs to the queried user
and carries the queried slug. -/
theorem findBySlug_some {s : Store} {userId : Nat} {slug : String} {r : AgentRow}
    (h : findBySlug s userId slug = some r) :
    r ∈ s.agents ∧ r.user_id = userId ∧ r.slug = slug := by
  have hmem := List.mem_of_find?_eq_some h
  have hp := List.find?_some h
  have hp2 := of_decide_eq_true hp
  exact ⟨hmem, hp2.1, hp2.2⟩

mutual

/-- `AgentFactory.createAgentRecursive`: throws on a visited slug, a failed
lookup or an ownership mismatch; recursively builds each handoff target with
a copy of the visited set (`new Set(visitedAgents)`), skipping targets whose
build throws; attaches the built-in and MCP tools; and constructs the
`Agent` with the date-augmented instructions and hard-coded model. -/
def createAgentRecursive (s : Store) (ctx : UserCtx) (clock : String → DateParts)
    (agentSlug : String) (visitedAgents : List String) :
    Except BuildError ExecAgent :=
  if hv : agentSlug ∈ visitedAgents then
    .error (.circular agentSlug)
  else
    match hf : findBySlug s ctx.id agentSlug with
    | none => .error (.notFound agentSlug)
    | some agentData =>
      if agentData.user_id ≠ ctx.id then
        .error .unauthorized
      else
        let builtInTools := listBuiltInTools s agentData.id
        let mcpTools := listMcpTools s agentData.id
        let handoffAgentData := listHandoffs s agentData.id
        let userMcpTools := listMcpServersByUser s ctx.id
        let handoffs := buildHandoffList s ctx clock
          (handoffAgentData.map (fun h => h.slug)) (agentSlug :: visitedAgents)
        let tools :=
          (if builtInTools.contains "internet_search" then [AgentTool.webSearch]
           else [])
            ++ resolveMcpTools mcpTools userMcpTools
        .ok (ExecAgent.mk agentData.name
          (agentData.system_prompt ++ "\n\nToday\x27s Date: "
            ++ formatDateTime (clock (userTimezone ctx)))
          "gpt-4.1-mini" tools handoffs)
termination_by (unvisitedCount s visitedAgents, 0)
decreasing_by
  apply Prod.Lex.left
  apply unvisitedCount_cons_lt s agentSlug visitedAgents hv
  have := findBySlug_some hf
  exact ⟨agentData, this.1, this.2.2⟩

/-- The handoff loop of `createAgentRecursive`: builds each target in order,
keeping successful builds and skipping (with a warning) targets whose
recursive build throws. -/
def buildHandoffList (s : Store) (ctx : UserCtx) (clock : String → DateParts)
    (slugs : List String) (visited : List String) : List ExecAgent :=
  match slugs with
  | [] => []
  | sl :: rest =>
    match createAgentRecursive s ctx clock sl visited with
    | .ok inst => inst :: buildHandoffList s ctx clock rest visited
    | .error _ => buildHandoffList s ctx clock rest visited
termination_by (unvisitedCount s visited, slugs.length + 1)
decreasing_by
  · apply Prod.Lex.right
    simp only [List.length_cons]
    omega
  · apply Prod.Lex.right
    simp only [List.length_cons]
    omega

end

/-- `AgentFactory.createAgent`: the recursive build started with an empty
visited set. -/
def createAgent (s : Store) (ctx : UserCtx) (clock : String → DateParts)
    (agentSlug : String) : Except BuildError ExecAgent :=
  createAgentRecursive s ctx clock agentSlug []

/-! ## Stream event translation (`src/backend/handlers/chat.ts`)

The execution engine's heterogeneous event feed and the normalized frames
pushed to the client.  Frame names follow the wire protocol of the source:
`text` carries a delta fragment, `agent_update` the new agent name,
`handoff` a handoff name, plus the `started`/`stopped`/`init`/`done`/`error`
lifecycle frames. -/

/-- One normalized server-sent frame. -/
inductive StreamFrame where
  | init (conversationId : Nat) : StreamFrame
  | started : StreamFrame
  | text (content : String) : StreamFrame
  | stopped : StreamFrame
  | toolCall (name agentName status : String) : StreamFrame
  | agentUpdate (agentName : String) : StreamFrame
  | handoff (name : String) : StreamFrame
  | done : StreamFrame
  | errorFrame (message : String) : StreamFrame
  deriving DecidableEq

/-- A raw model event (`event.data` of a `raw_model_stream_event`). -/
inductive RawModelEvent where
  | model : RawModelEvent
  | outputTextDelta (delta : String) : RawModelEvent
  | responseStarted : RawModelEvent
  | responseDone : RawModelEvent
  | otherRaw (kind : String) : RawModelEvent
  deriving DecidableEq

/-- The `rawItem.type` shapes of a tool-call run item, as consumed by
`getToolName`. -/
inductive RawToolItemType where
  | computerCall (actionType : String) : RawToolItemType
  | functionCall (name : String) : RawToolItemType
  | hostedToolCall (name : String) : RawToolItemType
  | applyPatchCall : RawToolItemType
  | shellCall : RawToolItemType
  | otherKind (kind : String) : RawToolItemType
  deriving DecidableEq

/-- A `tool_called` run item: owning agent name, raw item shape and status. -/
structure ToolCallItem where
  agentName : String
  rawType : RawToolItemType
  status : String
  deriving DecidableEq

/-- A run-item lifecycle event (`event.name` of a `run_item_stream_event`). -/
inductive RunItemEvent where
  | toolCalled (item : ToolCallItem) : RunItemEvent
  | toolApprovalRequested : RunItemEvent
  | toolOutput : RunItemEvent
  | handoffRequested (rawItemName : String) : RunItemEvent
  | handoffOccurred (targetAgentName : String) : RunItemEvent
  | reasoningItemCreated : RunItemEvent
  | messageOutputCreated : RunItemEvent
  deriving DecidableEq

/-- One event of the streamed run result consumed by the translator loop. -/
inductive RunStreamEvent where
  | agentUpdated (agentName : String) : RunStreamEvent
  | rawModel (data : RawModelEvent) : RunStreamEvent
  | runItem (item : RunItemEvent) : RunStreamEvent
  | otherEvent (kind : String) : RunStreamEvent
  deriving DecidableEq

/-- `getToolName` of `chat.ts`: function and hosted tools report their name,
a computer call its action type, and every other kind falls back to the raw
item type string. -/
def getToolName (item : ToolCallItem) : String :=
  match item.rawType with
  | .computerCall actionType => actionType
  | .functionCall n => n
  | .hostedToolCall n => n
  | .applyPatchCall => "apply_patch_call"
  | .shellCall => "shell_call"
  | .otherKind kind => kind

/-- `handleRawModelStreamEvent`: emits the frames for one raw model event and
returns the text fragment added to the running output accumulator (the
function's string return value; empty for non-delta events). -/
def handleRawModelStreamEvent (data : RawModelEvent) : List StreamFrame × String :=
  match data with
  | .model => ([], "")
  | .outputTextDelta delta => ([.text delta], delta)
  | .responseStarted => ([.started], "")
  | .responseDone => ([.stopped], "")
  | .otherRaw _ => ([], "")

/-- `handleRunItemStreamEvent`: emits a `tool_call` frame for `tool_called`
items and a `handoff` frame (carrying `rawItem.name`) for
`handoff_requested` items; `handoff_occurred` only logs to the server
console, and the remaining lifecycle kinds are no-ops. -/
def handleRunItemStreamEvent (e : RunItemEvent) : List StreamFrame :=
  match e with
  | .toolCalled item => [.toolCall (getToolName item) item.agentName item.status]
  | .toolApprovalRequested => []
  | .toolOutput => []
  | .handoffRequested rawItemName => [.handoff rawItemName]
  | .handoffOccurred _ => []
  | .reasoningItemCreated => []
  | .messageOutputCreated => []

/-- `handleAgentUpdatedStreamEvent`: emits one `agent_update` frame. -/
def handleAgentUpdatedStreamEvent (agentName : String) : List StreamFrame :=
  [.agentUpdate agentName]

/-- One iteration of the `for await` translator loop of `sendMessageStream`:
frames emitted for the event plus the fragment appended to `fullOutput`. -/
def translateEvent (e : RunStreamEvent) : List StreamFrame × String :=
  match e with
  | .agentUpdated agentName => (handleAgentUpdatedStreamEvent agentName, "")
  | .rawModel data => handleRawModelStreamEvent data
  | .runItem item => (handleRunItemStreamEvent item, "")
  | .otherEvent _ => ([], "")

/-- The whole translator loop over the raw feed: ordered frames on the single
output channel and the accumulated final assistant text. -/
def translateFeed : List RunStreamEvent → List StreamFrame × String
  | [] => ([], "")
  | e :: rest =>
    let step := translateEvent e
    let tail := translateFeed rest
    (step.1 ++ tail.1, step.2 ++ tail.2)

/-! ## Conversation persistence and the `DatabaseSession` adapters

`PostgresConversationRepository` stores `messages` rows per conversation in
creation order (`listMessages` selects `ORDER BY created_at ASC`,
`addMessage` inserts one row).  The structured payload column is the
`raw_data JSONB` field of the `messages` schema, declared in
`src/backend/schema.sql` and `src/backend/types/models.ts`. -/

/-- The structured content parts of a message item; only `text` and
`input_text` parts contribute to the display projection. -/
inductive ContentPart where
  | textPart (text : String) : ContentPart
  | inputTextPart (text : String) : ContentPart
  | otherPart (kind : String) : ContentPart
  deriving DecidableEq

/-- Content of a message-shaped item: a plain string or a part list. -/
inductive ItemContent where
  | str (s : String) : ItemContent
  | parts (ps : List ContentPart) : ItemContent
  deriving DecidableEq

/-- A run-format `AgentInputItem`: a role-carrying message, a hosted tool
call, or another typed item (e.g. a handoff call) without display text. -/
inductive AgentInputItem where
  | message (role : String) (content : ItemContent) : AgentInputItem
  | hostedToolCall (name : String) : AgentInputItem
  | otherItem (kind : String) : AgentInputItem
  deriving DecidableEq

/-- One row of the `messages` table as the adapters see it. -/
structure MessageRow where
  id : Nat
  conversation_id : Nat
  role : String
  content : String
  raw_data : Option AgentInputItem
  agent_id : Option Nat
  deriving DecidableEq

/-- The `messages` table in creation order, with the id sequence. -/
structure ConvRepoState where
  messages : List MessageRow
  nextId : Nat
  deriving DecidableEq

/-- `PostgresConversationRepository.listMessages`: the conversation's rows in
creation order. -/
def listMessages (st : ConvRepoState) (conversationId : Nat) : List MessageRow :=
  st.messages.filter (fun m => decide (m.conversation_id = conversationId))

/-- Modelled from the spec: the persisted-exchange write path.  The concrete
repository variant that stores the structured payload is not in the
snapshot (the Postgres implementation present predates the `raw_data`
column, which the schema migration adds); per the persisted-exchange
schema, an appended item stores role, display text, the optional structured
payload and optional agent attribution as one new row in creation order. -/
def addMessage (st : ConvRepoState) (conversationId : Nat) (role content : String)
    (rawData : Option AgentInputItem) (agentId : Option Nat) : ConvRepoState :=
  ⟨st.messages ++ [⟨st.nextId, conversationId, role, content, rawData, agentId⟩],
    st.nextId + 1⟩

/-- `PostgresConversationRepository.deleteMessage`: removes the row by id. -/
def deleteMessage (st : ConvRepoState) (messageId : Nat) : ConvRepoState :=
  ⟨st.messages.filter (fun m => decide (m.id ≠ messageId)), st.nextId⟩

namespace DatabaseSession

/-- Display-text projection computed by `DatabaseSession.addItems`: the
string content, the newline-joined `text`/`input_text` parts, or the
synthetic `Tool call: X` label; other items project to the empty string. -/
def displayText : AgentInputItem → String
  | .message _ (.str s) => s
  | .message _ (.parts ps) =>
    String.intercalate "\n"
      (ps.filterMap (fun part =>
        match part with
        | .textPart t => some t
        | .inputTextPart t => some t
        | .otherPart _ => none))
  | .hostedToolCall n => "Tool call: " ++ n
  | .otherItem _ => ""

/-- Role stored by `DatabaseSession.addItems`: the item's role when it has
one, `assistant` otherwise. -/
def roleOf : AgentInputItem → String
  | .message role _ => role
  | .hostedToolCall _ => "assistant"
  | .otherItem _ => "assistant"

/-- `DatabaseSession.addItems` (structured-payload version): persists each
item with its display projection (`[non-text content]` when empty, per the
falsy `||` fallback) and the full structured payload verbatim. -/
def addItems (st : ConvRepoState) (conversationId : Nat)
    (items : List AgentInputItem) : ConvRepoState :=
  items.foldl
    (fun acc item =>
      addMessage acc conversationId (roleOf item)
        (if displayText item = "" then "[non-text content]" else displayText item)
        (some item) none)
    st

/-- `messageToAgentInputItem`: returns the structured payload of a row, and
fails explicitly (`Unknown message role`) for a row without one. -/
def messageToAgentInputItem (m : MessageRow) : Except String AgentInputItem :=
  match m.raw_data with
  | some d => .ok d
  | none => .error ("Unknown message role: " ++ m.role)

/-- Left-to-right reconstruction of all rows, propagating the explicit
failure: the exception thrown inside `messages.map(messageToAgentInputItem)`
aborts at the first payload-less row. -/
def mapToItems : List MessageRow → Except String (List AgentInputItem)
  | [] => .ok []
  | m :: rest =>
    match messageToAgentInputItem m with
    | .error e => .error e
    | .ok it =>
      match mapToItems rest with
      | .error e => .error e
      | .ok its => .ok (it :: its)

/-- `DatabaseSession.getItems` (structured-payload version): reconstructs the
items from the persisted payloads, propagating the explicit failure, and
keeps only the most recent `limit` items when the limit is strictly
positive (`slice(-limit)`). -/
def getItems (st : ConvRepoState) (conversationId : Nat) (limit : Option Int) :
    Except String (List AgentInputItem) :=
  match mapToItems (listMessages st conversationId) with
  | .error e => .error e
  | .ok items =>
    .ok (match limit with
      | some l =>
        if l > 0 then items.drop (items.length - l.toNat) else items
      | none => items)

/-- `DatabaseSession.popItem` (structured-payload version): removes the most
recent row and returns its reconstructed item, or `none` when empty. -/
def popItem (st : ConvRepoState) (conversationId : Nat) :
    ConvRepoState × Option (Except String AgentInputItem) :=
  match (listMessages st conversationId).getLast? with
  | none => (st, none)
  | some lastMessage =>
    (deleteMessage st lastMessage.id, some (messageToAgentInputItem lastMessage))

end DatabaseSession

namespace DatabaseSessionSimple

/-- The item shape of the plain `src/backend/services/DatabaseSession.ts`
adapter: role plus flat string content. -/
structure SimpleItem where
  role : String
  content : String
  deriving DecidableEq

/-- `DatabaseSession.getItems` of the plain adapter: maps rows to role and
content, keeping only the most recent `limit` items when the limit is
strictly positive. -/
def getItems (st : ConvRepoState) (conversationId : Nat) (limit : Option Int) :
    List SimpleItem :=
  let items := (listMessages st conversationId).map (fun m => ⟨m.role, m.content⟩)
  match limit with
  | some l =>
    if l > 0 then items.drop (items.length - l.toNat) else items
  | none => items

end DatabaseSessionSimple

/-! ## Facts about the decimal rendering and the date format -/

theorem charToDigit_digitChar {n : Nat} (h : n < 10) :
    charToDigit (Nat.digitChar n) = n := by
  interval_cases n <;> decide

theorem decVal_append_singleton (l : List Char) (c : Char) :
    decVal (l ++ [c]) = 10 * decVal l + charToDigit c := by
  simp [decVal, List.foldl_append]

theorem decVal_decDigitsAux :
    ∀ (fuel n : Nat), n < 10 ^ fuel → decVal (decDigitsAux fuel n) = n := by
  intro fuel
  induction fuel with
  | zero =>
    intro n hn
    have : n = 0 := by simpa using hn
    subst this
    rfl
  | succ fuel ih =>
    intro n hn
    by_cases h : n < 10
    · simp only [decDigitsAux, h, if_true]
      show 10 * 0 + charToDigit (Nat.digitChar n) = n
      rw [charToDigit_digitChar h]
      omega
    · simp only [decDigitsAux, h, if_false]
      rw [decVal_append_singleton]
      have hdiv : n / 10 < 10 ^ fuel := by
        rw [Nat.div_lt_iff_lt_mul (by omega)]
        calc n < 10 ^ (fuel + 1) := hn
        _ = 10 ^ fuel * 10 := by rw [pow_succ]
      rw [ih (n / 10) hdiv, charToDigit_digitChar (Nat.mod_lt n (by omega))]
      omega

theorem lt_ten_pow_succ (n : Nat) : n < 10 ^ (n + 1) := by
  have h1 : n < 10 ^ n := Nat.lt_pow_self (by omega) n
  have h2 : 10 ^ n ≤ 10 ^ (n + 1) := Nat.pow_le_pow_right (by omega) (by omega)
  omega

theorem decVal_decRepr (n : Nat) : decVal (decRepr n) = n :=
  decVal_decDigitsAux (n + 1) n (lt_ten_pow_succ n)

theorem decRepr_injective {m n : Nat} (h : decRepr m = decRepr n) : m = n := by
  have := congrArg decVal h
  rwa [decVal_decRepr, decVal_decRepr] at this

theorem digitChar_mem_decDigitChars {n : Nat} (h : n < 10) :
    Nat.digitChar n ∈ decDigitChars := by
  interval_cases n <;> decide

theorem mem_decDigitsAux_mem_decDigitChars :
    ∀ (fuel n : Nat) (c : Char), c ∈ decDigitsAux fuel n → c ∈ decDigitChars := by
  intro fuel
  induction fuel with
  | zero =>
    intro n c hc
    simp [decDigitsAux] at hc
  | succ fuel ih =>
    intro n c hc
    by_cases h : n < 10
    · simp only [decDigitsAux, h, if_true, List.mem_singleton] at hc
      exact hc ▸ digitChar_mem_decDigitChars h
    · simp only [decDigitsAux, h, if_false, List.mem_append,
        List.mem_singleton] at hc
      rcases hc with hc | hc
      · exact ih (n / 10) c hc
      · exact hc ▸ digitChar_mem_decDigitChars (Nat.mod_lt n (by omega))

theorem comma_not_mem_decRepr (n : Nat) : ',' ∉ decRepr n := by
  intro h
  have := mem_decDigitsAux_mem_decDigitChars (n + 1) n ',' h
  simp [decDigitChars] at this

theorem space_not_mem_decRepr (n : Nat) : ' ' ∉ decRepr n := by
  intro h
  have := mem_decDigitsAux_mem_decDigitChars (n + 1) n ' ' h
  simp [decDigitChars] at this

theorem first_occurrence_split {α : Type} (c : α) :
    ∀ (x x' y y' : List α), c ∉ x → c ∉ x' →
      x ++ c :: y = x' ++ c :: y' → x = x' ∧ y = y' := by
  intro x
  induction x with
  | nil =>
    intro x' y y' hx hx' h
    cases x' with
    | nil =>
      simp only [List.nil_append, List.cons.injEq] at h
      exact ⟨rfl, h.2⟩
    | cons b u =>
      simp only [List.nil_append, List.cons_append, List.cons.injEq] at h
      exact absurd (h.1 ▸ List.mem_cons_self b u) hx'
  | cons a t ih =>
    intro x' y y' hx hx' h
    cases x' with
    | nil =>
      simp only [List.cons_append, List.nil_append, List.cons.injEq] at h
      exact absurd (h.1.symm ▸ List.mem_cons_self a t) hx
    | cons b u =>
      simp only [List.cons_append, List.cons.injEq] at h
      have hrec := ih u y y'
        (fun hm => hx (List.mem_cons_of_mem _ hm))
        (fun hm => hx' (List.mem_cons_of_mem _ hm)) h.2
      exact ⟨by rw [h.1, hrec.1], hrec.2⟩

theorem comma_not_mem_weekdayChars (w : Fin 7) : ',' ∉ weekdayChars w := by
  have := w.2
  fin_cases w <;> decide

theorem comma_not_mem_monthChars (m : Fin 12) : ',' ∉ monthChars m := by
  fin_cases m <;> decide

theorem space_not_mem_monthChars (m : Fin 12) : ' ' ∉ monthChars m := by
  fin_cases m <;> decide

theorem monthChars_injective {m1 m2 : Fin 12} (h : monthChars m1 = monthChars m2) :
    m1 = m2 := by
  fin_cases m1 <;> fin_cases m2 <;> first | rfl | (exfalso; revert h; decide)

/-- The rendered date determines the calendar date: equality of `formatChars`
output forces equal year, month and day. -/
theorem formatChars_determines_date {p1 p2 : DateParts}
    (h : formatChars p1 = formatChars p2) :
    p1.year = p2.year ∧ p1.month = p2.month ∧ p1.day = p2.day := by
  unfold formatChars at h
  have step1 := first_occurrence_split ',' _ _ _ _
    (comma_not_mem_weekdayChars p1.weekday) (comma_not_mem_weekdayChars p2.weekday) h
  have h2 : monthChars p1.month ++ ' ' ::
      (decRepr p1.day ++ ',' :: ' ' :: (decRepr p1.year ++ ' ' :: timeTailChars p1))
      = monthChars p2.month ++ ' ' ::
      (decRepr p2.day ++ ',' :: ' ' :: (decRepr p2.year ++ ' ' :: timeTailChars p2)) := by
    have := step1.2
    simpa using this
  have step2 := first_occurrence_split ' ' _ _ _ _
    (space_not_mem_monthChars p1.month) (space_not_mem_monthChars p2.month) h2
  have hmonth : p1.month = p2.month := monthChars_injective step2.1
  have step3 := first_occurrence_split ',' _ _ _ _
    (comma_not_mem_decRepr p1.day) (comma_not_mem_decRepr p2.day) step2.2
  have hday : p1.day = p2.day := decRepr_injective step3.1
  have h4 : decRepr p1.year ++ ' ' :: timeTailChars p1
      = decRepr p2.year ++ ' ' :: timeTailChars p2 := by
    have := step3.2
    simpa using this
  have step4 := first_occurrence_split ' ' _ _ _ _
    (space_not_mem_decRepr p1.year) (space_not_mem_decRepr p2.year) h4
  exact ⟨decRepr_injective step4.1, hmonth, hday⟩

/-- Distinct calendar days render to distinct date strings. -/
theorem formatDateTime_ne_of_date_ne {p1 p2 : DateParts}
    (h : ¬ (p1.year = p2.year ∧ p1.month = p2.month ∧ p1.day = p2.day)) :
    formatDateTime p1 ≠ formatDateTime p2 := by
  intro heq
  apply h
  apply formatChars_determines_date
  unfold formatDateTime at heq
  injection heq

/-! ## Unfolding facts for the recursive build -/

theorem createAgentRecursive_circular {s : Store} {ctx : UserCtx}
    {clock : String → DateParts} {agentSlug : String} {visited : List String}
    (hv : agentSlug ∈ visited) :
    createAgentRecursive s ctx clock agentSlug visited
      = .error (.circular agentSlug) := by
  rw [createAgentRecursive]
  simp [hv]

theorem createAgentRecursive_notFound {s : Store} {ctx : UserCtx}
    {clock : String → DateParts} {agentSlug : String} {visited : List String}
    (hv : agentSlug ∉ visited) (hf : findBySlug s ctx.id agentSlug = none) :
    createAgentRecursive s ctx clock agentSlug visited
      = .error (.notFound agentSlug) := by
  rw [createAgentRecursive]
  simp only [dif_neg hv]
  split
  · rfl
  · rename_i agentData heq
    rw [hf] at heq
    cases heq

theorem createAgentRecursive_ok {s : Store} {ctx : UserCtx}
    {clock : String → DateParts} {agentSlug : String} {visited : List String}
    {r : AgentRow} (hv : agentSlug ∉ visited)
    (hf : findBySlug s ctx.id agentSlug = some r) :
    createAgentRecursive s ctx clock agentSlug visited
      = .ok (ExecAgent.mk r.name
          (r.system_prompt ++ "\n\nToday\x27s Date: "
            ++ formatDateTime (clock (userTimezone ctx)))
          "gpt-4.1-mini"
          ((if (listBuiltInTools s r.id).contains "internet_search"
              then [AgentTool.webSearch] else [])
            ++ resolveMcpTools (listMcpTools s r.id) (listMcpServersByUser s ctx.id))
          (buildHandoffList s ctx clock
            ((listHandoffs s r.id).map (fun h => h.slug))
            (agentSlug :: visited))) := by
  have huser : r.user_id = ctx.id := (findBySlug_some hf).2.1
  rw [createAgentRecursive]
  simp only [dif_neg hv]
  split
  · rename_i heq
    rw [hf] at heq
    cases heq
  · rename_i agentData heq
    rw [hf] at heq
    injection heq with heq2
    subst heq2
    simp [huser]

theorem buildHandoffList_nil {s : Store} {ctx : UserCtx}
    {clock : String → DateParts} {visited : List String} :
    buildHandoffList s ctx clock [] visited = [] := by
  rw [buildHandoffList]

theorem buildHandoffList_cons_ok {s : Store} {ctx : UserCtx}
    {clock : String → DateParts} {sl : String} {rest visited : List String}
    {a : ExecAgent}
    (h : createAgentRecursive s ctx clock sl visited = .ok a) :
    buildHandoffList s ctx clock (sl :: rest) visited
      = a :: buildHandoffList s ctx clock rest visited := by
  rw [buildHandoffList]
  simp [h]

theorem buildHandoffList_cons_error {s : Store} {ctx : UserCtx}
    {clock : String → DateParts} {sl : String} {rest visited : List String}
    {e : BuildError}
    (h : createAgentRecursive s ctx clock sl visited = .error e) :
    buildHandoffList s ctx clock (sl :: rest) visited
      = buildHandoffList s ctx clock rest visited := by
  rw [buildHandoffList]
  simp [h]

/-- Inversion: a successful recursive build implies an unvisited slug, a
successful owner-scoped lookup, and pins down the built value. -/
theorem createAgentRecursive_ok_inversion {s : Store} {ctx : UserCtx}
    {clock : String → DateParts} {agentSlug : String} {visited : List String}
    {a : ExecAgent}
    (h : createAgentRecursive s ctx clock agentSlug visited = .ok a) :
    agentSlug ∉ visited ∧ ∃ r, findBySlug s ctx.id agentSlug = some r ∧
      a = ExecAgent.mk r.name
          (r.system_prompt ++ "\n\nToday\x27s Date: "
            ++ formatDateTime (clock (userTimezone ctx)))
          "gpt-4.1-mini"
          ((if (listBuiltInTools s r.id).contains "internet_search"
              then [AgentTool.webSearch] else [])
            ++ resolveMcpTools (listMcpTools s r.id) (listMcpServersByUser s ctx.id))
          (buildHandoffList s ctx clock
            ((listHandoffs s r.id).map (fun h => h.slug))
            (agentSlug :: visited)) := by
  by_cases hv : agentSlug ∈ visited
  · rw [createAgentRecursive_circular hv] at h
    cases h
  · cases hf : findBySlug s ctx.id agentSlug with
    | none =>
      rw [createAgentRecursive_notFound hv hf] at h
      cases h
    | some r =>
      rw [createAgentRecursive_ok hv hf] at h
      injection h with h1
      exact ⟨hv, r, rfl, h1.symm⟩

/-- Every member of the handoff list is the successful recursive build of one
of the listed slugs, against the same (branch-copied) visited set. -/
theorem mem_buildHandoffList {s : Store} {ctx : UserCtx}
    {clock : String → DateParts} {visited : List String} :
    ∀ {slugs : List String} {a : ExecAgent}, a ∈ buildHandoffList s ctx clock slugs visited →
      ∃ sl, sl ∈ slugs ∧ createAgentRecursive s ctx clock sl visited = .ok a := by
  intro slugs
  induction slugs with
  | nil =>
    intro a ha
    rw [buildHandoffList_nil] at ha
    simp at ha
  | cons sl rest ih =>
    intro a ha
    cases hr : createAgentRecursive s ctx clock sl visited with
    | ok b =>
      rw [buildHandoffList_cons_ok hr] at ha
      rcases List.mem_cons.mp ha with rfl | ha
      · exact ⟨sl, List.mem_cons_self _ _, hr⟩
      · rcases ih ha with ⟨sl2, hmem, hok⟩
        exact ⟨sl2, List.mem_cons_of_mem _ hmem, hok⟩
    | error e =>
      rw [buildHandoffList_cons_error hr] at ha
      rcases ih ha with ⟨sl2, hmem, hok⟩
      exact ⟨sl2, List.mem_cons_of_mem _ hmem, hok⟩

theorem heightList_le {k : Nat} :
    ∀ {l : List ExecAgent}, (∀ a ∈ l, a.height ≤ k) → heightList l ≤ k := by
  intro l
  induction l with
  | nil =>
    intro _
    simp [heightList]
  | cons a t ih =>
    intro h
    rw [heightList]
    exact max_le (h a (List.mem_cons_self _ _))
      (ih fun b hb => h b (List.mem_cons_of_mem _ hb))

/-- The height of a successfully built tree is bounded by the number of rows
whose slug is not yet on the branch: the recursion depth never exceeds the
number of distinct reachable slugs. -/
theorem height_le_unvisitedCount {s : Store} {ctx : UserCtx}
    {clock : String → DateParts} :
    ∀ (n : Nat) (agentSlug : String) (visited : List String) (a : ExecAgent),
      unvisitedCount s visited ≤ n →
      createAgentRecursive s ctx clock agentSlug visited = .ok a →
      a.height ≤ unvisitedCount s visited := by
  intro n
  induction n with
  | zero =>
    intro agentSlug visited a hn h
    rcases createAgentRecursive_ok_inversion h with ⟨hv, r, hf, _⟩
    have hlt := unvisitedCount_cons_lt s agentSlug visited hv
      ⟨r, (findBySlug_some hf).1, (findBySlug_some hf).2.2⟩
    omega
  | succ n ih =>
    intro agentSlug visited a hn h
    rcases createAgentRecursive_ok_inversion h with ⟨hv, r, hf, ha⟩
    have hlt := unvisitedCount_cons_lt s agentSlug visited hv
      ⟨r, (findBySlug_some hf).1, (findBySlug_some hf).2.2⟩
    have hchild : ∀ b ∈ buildHandoffList s ctx clock
        ((listHandoffs s r.id).map (fun h => h.slug)) (agentSlug :: visited),
        ExecAgent.height b ≤ unvisitedCount s (agentSlug :: visited) := by
      intro b hb
      rcases mem_buildHandoffList hb with ⟨sl, _, hok⟩
      exact ih sl (agentSlug :: visited) b (by omega) hok
    have hheight : a.height = heightList (buildHandoffList s ctx clock
        ((listHandoffs s r.id).map (fun h => h.slug)) (agentSlug :: visited)) + 1 := by
      rw [ha, ExecAgent.height]
    rw [hheight]
    have := heightList_le hchild
    omega

/-! ## Facts about the conversation adapter -/

theorem listMessages_addMessage_same (st : ConvRepoState) (cid : Nat)
    (role content : String) (raw : Option AgentInputItem) (agentId : Option Nat) :
    listMessages (addMessage st cid role content raw agentId) cid
      = listMessages st cid ++ [⟨st.nextId, cid, role, content, raw, agentId⟩] := by
  unfold listMessages addMessage
  rw [List.filter_append]
  simp

theorem mapToItems_append_ok {l : List MessageRow} {m : MessageRow}
    {it : AgentInputItem}
    (hm : DatabaseSession.messageToAgentInputItem m = .ok it) :
    DatabaseSession.mapToItems (l ++ [m])
      = match DatabaseSession.mapToItems l with
        | .ok xs => .ok (xs ++ [it])
        | .error e => .error e := by
  induction l with
  | nil =>
    simp [DatabaseSession.mapToItems, hm]
  | cons a t ih =>
    rw [List.cons_append]
    rw [DatabaseSession.mapToItems]
    cases ha : DatabaseSession.messageToAgentInputItem a with
    | error e =>
      rw [DatabaseSession.mapToItems, ha]
    | ok ita =>
      rw [DatabaseSession.mapToItems, ha]
      rw [ih]
      cases ht : DatabaseSession.mapToItems t <;> simp

theorem mapToItems_addItems (cid : Nat) :
    ∀ (items : List AgentInputItem) (st : ConvRepoState),
      DatabaseSession.mapToItems
          (listMessages (DatabaseSession.addItems st cid items) cid)
        = match DatabaseSession.mapToItems (listMessages st cid) with
          | .ok xs => .ok (xs ++ items)
          | .error e => .error e := by
  intro items
  induction items with
  | nil =>
    intro st
    show DatabaseSession.mapToItems (listMessages st cid) = _
    cases h : DatabaseSession.mapToItems (listMessages st cid) <;> simp
  | cons it rest ih =>
    intro st
    show DatabaseSession.mapToItems
        (listMessages (DatabaseSession.addItems
          (addMessage st cid (DatabaseSession.roleOf it) _ (some it) none) cid rest) cid) = _
    rw [ih]
    rw [listMessages_addMessage_same]
    rw [mapToItems_append_ok (by rw [DatabaseSession.messageToAgentInputItem])]
    cases h : DatabaseSession.mapToItems (listMessages st cid) <;> simp

theorem mapToItems_error_of_missing_payload :
    ∀ {l : List MessageRow}, (∃ m, m ∈ l ∧ m.raw_data = none) →
      ∃ e, DatabaseSession.mapToItems l = .error e := by
  intro l
  induction l with
  | nil =>
    intro h
    rcases h with ⟨m, hm, _⟩
    simp at hm
  | cons a t ih =>
    intro h
    rcases h with ⟨m, hm, hraw⟩
    rcases List.mem_cons.mp hm with rfl | hmt
    · refine ⟨"Unknown message role: " ++ m.role, ?_⟩
      rw [DatabaseSession.mapToItems]
      rw [show DatabaseSession.messageToAgentInputItem m
        = .error ("Unknown message role: " ++ m.role) from by
          rw [DatabaseSession.messageToAgentInputItem, hraw]]
    · cases ha : DatabaseSession.messageToAgentInputItem a with
      | error e =>
        refine ⟨e, ?_⟩
        rw [DatabaseSession.mapToItems, ha]
      | ok ita =>
        rcases ih ⟨m, hmt, hraw⟩ with ⟨e, he⟩
        refine ⟨e, ?_⟩
        rw [DatabaseSession.mapToItems, ha, he]

/-! ## Distinct-slug measure for the recursion-depth bound -/

/-- The distinct slugs stored in the agents table. -/
def slugPool (s : Store) : List String := (s.agents.map (fun r => r.slug)).dedup

/-- Number of distinct stored slugs not yet on the current branch. -/
def distinctUnvisited (s : Store) (visited : List String) : Nat :=
  ((slugPool s).filter (fun sl => decide (sl ∉ visited))).length

theorem distinctUnvisited_cons_lt (s : Store) (x : String) (visited : List String)
    (hx : x ∉ visited) (hmem : ∃ r, r ∈ s.agents ∧ r.slug = x) :
    distinctUnvisited s (x :: visited) < distinctUnvisited s visited := by
  apply length_filter_lt_of_imp
  · intro a _ hp
    have hnot : a ∉ x :: visited := of_decide_eq_true hp
    exact decide_eq_true (fun hm => hnot (List.mem_cons_of_mem _ hm))
  · rcases hmem with ⟨r, hr, hslug⟩
    refine ⟨x, ?_, decide_eq_true hx, ?_⟩
    · exact List.mem_dedup.mpr (List.mem_map.mpr ⟨r, hr, hslug⟩)
    · simp

/-- The height of a successfully built tree is bounded by the number of
distinct stored slugs not yet on the branch: recursion depth never exceeds
the number of distinct slugs reachable on the branch. -/
theorem height_le_distinctUnvisited {s : Store} {ctx : UserCtx}
    {clock : String → DateParts} :
    ∀ (n : Nat) (agentSlug : String) (visited : List String) (a : ExecAgent),
      distinctUnvisited s visited ≤ n →
      createAgentRecursive s ctx clock agentSlug visited = .ok a →
      a.height ≤ distinctUnvisited s visited := by
  intro n
  induction n with
  | zero =>
    intro agentSlug visited a hn h
    rcases createAgentRecursive_ok_inversion h with ⟨hv, r, hf, _⟩
    have hlt := distinctUnvisited_cons_lt s agentSlug visited hv
      ⟨r, (findBySlug_some hf).1, (findBySlug_some hf).2.2⟩
    omega
  | succ n ih =>
    intro agentSlug visited a hn h
    rcases createAgentRecursive_ok_inversion h with ⟨hv, r, hf, ha⟩
    have hlt := distinctUnvisited_cons_lt s agentSlug visited hv
      ⟨r, (findBySlug_some hf).1, (findBySlug_some hf).2.2⟩
    have hchild : ∀ b ∈ buildHandoffList s ctx clock
        ((listHandoffs s r.id).map (fun h => h.slug)) (agentSlug :: visited),
        ExecAgent.height b ≤ distinctUnvisited s (agentSlug :: visited) := by
      intro b hb
      rcases mem_buildHandoffList hb with ⟨sl, _, hok⟩
      exact ih sl (agentSlug :: visited) b (by omega) hok
    have hheight : a.height = heightList (buildHandoffList s ctx clock
        ((listHandoffs s r.id).map (fun h => h.slug)) (agentSlug :: visited)) + 1 := by
      rw [ha, ExecAgent.height]
    rw [hheight]
    have := heightList_le hchild
    omega

/-! ## Concrete inputs used by counterexamples and witnesses -/

/-- A fixed platform clock: every timezone query returns the same parts. -/
def clock0 : String → DateParts := fun tz => ⟨3, 5, 14, 2025, 9, 30, tz⟩

/-- Owner context of user 1 with no configured timezone. -/
def ctx1 : UserCtx := ⟨1, none⟩

/-- One agent whose handoff edge points at itself: the root slug reappears on
its own handoff chain. -/
def selfStore : Store := ⟨[⟨1, 1, "a", "A", "P"⟩], [], [], [(1, 1)], [], []⟩

/-- Two agents with a handoff cycle `a → b → a`. -/
def cycleStore : Store :=
  ⟨[⟨1, 1, "a", "A", "PA"⟩, ⟨2, 1, "b", "B", "PB"⟩], [], [],
    [(1, 2), (2, 1)], [], []⟩

/-- The diamond `a → {b, c}`, `b → d`, `c → d`. -/
def diamondStore : Store :=
  ⟨[⟨1, 1, "a", "A", "PA"⟩, ⟨2, 1, "b", "B", "PB"⟩,
    ⟨3, 1, "c", "C", "PC"⟩, ⟨4, 1, "d", "D", "PD"⟩], [], [],
    [(1, 2), (1, 3), (2, 4), (3, 4)], [], []⟩

/-- A single agent with slug `a` owned by user 2 (not by user 1). -/
def otherOwnerStore : Store := ⟨[⟨1, 2, "a", "A", "P"⟩], [], [], [], [], []⟩

/-- Agent `a` with an enabled `memory` capability tag and one peer-agent tool
reference to agent `b`, but no handoffs and no MCP references. -/
def peerToolStore : Store :=
  ⟨[⟨1, 1, "a", "A", "P"⟩, ⟨2, 1, "b", "B", "PB"⟩], [(1, "memory")], [], [],
    [(1, 2)], []⟩

/-! ## Claims -/

/-- C1, amended.  `build(ownerContext, rootSlug)` fails with `NotFound` when
the root slug does not resolve for the owner, and otherwise succeeds; a root
slug reappearing on its own handoff chain does not fail the build (the
offending branch is pruned inside the recursion, whose thrown
`CircularDependency` is caught by the parent loop), and the only error the
top-level build can return is `NotFound` — never `CircularDependency` and
never `Unauthorized`. -/
theorem claim1_build_error_contract (s : Store) (ctx : UserCtx)
    (clock : String → DateParts) (slug : String) :
    (findBySlug s ctx.id slug = none →
      createAgent s ctx clock slug = .error (.notFound slug))
    ∧ (∀ r, findBySlug s ctx.id slug = some r →
      ∃ a, createAgent s ctx clock slug = .ok a)
    ∧ (∀ e, createAgent s ctx clock slug = .error e → e = .notFound slug) := by
  refine ⟨?_, ?_, ?_⟩
  · intro hf
    exact createAgentRecursive_notFound (by simp) hf
  · intro r hf
    exact ⟨_, createAgentRecursive_ok (by simp) hf⟩
  · intro e he
    unfold createAgent at he
    cases hf : findBySlug s ctx.id slug with
    | none =>
      rw [createAgentRecursive_notFound (by simp) hf] at he
      injection he with h1
      exact h1.symm
    | some r =>
      rw [createAgentRecursive_ok (by simp) hf] at he
      cases he

/-- Witness for C1: the amended contract applied at concrete inputs — a
missing slug yields `NotFound`, and the self-referential root still builds. -/
theorem claim1_build_error_contract_witness :
    createAgent otherOwnerStore ctx1 clock0 "zzz" = .error (.notFound "zzz")
    ∧ ∃ a, createAgent selfStore ctx1 clock0 "a" = .ok a := by
  constructor
  · exact (claim1_build_error_contract otherOwnerStore ctx1 clock0 "zzz").1 rfl
  · exact (claim1_build_error_contract selfStore ctx1 clock0 "a").2.1
      ⟨1, 1, "a", "A", "P"⟩ rfl

/-- C1 counterexample: for root `a` whose handoff chain revisits `a` itself,
the claim predicts a `CircularDependency` failure, but the build succeeds,
returning the agent with the circular handoff edge dropped. -/
theorem claim1_counterexample :
    createAgent selfStore ctx1 clock0 "a"
      = .ok (ExecAgent.mk "A"
          ("P" ++ "\n\nToday\x27s Date: " ++ formatDateTime (clock0 "UTC"))
          "gpt-4.1-mini" [] []) := by
  have hcirc : createAgentRecursive selfStore ctx1 clock0 "a" ["a"]
      = .error (.circular "a") := createAgentRecursive_circular (by simp)
  unfold createAgent
  rw [@createAgentRecursive_ok selfStore ctx1 clock0 "a" [] ⟨1, 1, "a", "A", "P"⟩
    (by simp) rfl]
  rw [show (listHandoffs selfStore 1).map (fun h => h.slug) = ["a"] from rfl]
  rw [buildHandoffList_cons_error hcirc, buildHandoffList_nil]
  rfl

/-- C2.  Every build whose root slug resolves succeeds (handoff branches that
would revisit a slug on the current branch are skipped, never failing the
whole build), the built tree's depth is bounded by the number of distinct
stored slugs, and for the concrete cycle `a → b → a` the root builds with a
`B` child whose own handoff list is empty — no `B` loops back to `A`. -/
theorem claim2_nonroot_cycle_recovery (s : Store) (ctx : UserCtx)
    (clock : String → DateParts) (slug : String) (r : AgentRow)
    (hf : findBySlug s ctx.id slug = some r) :
    (∃ a, createAgent s ctx clock slug = .ok a
        ∧ ExecAgent.height a ≤ (slugPool s).length)
    ∧ createAgent cycleStore ctx1 clock "a"
        = .ok (ExecAgent.mk "A"
            ("PA" ++ "\n\nToday\x27s Date: " ++ formatDateTime (clock "UTC"))
            "gpt-4.1-mini" []
            [ExecAgent.mk "B"
              ("PB" ++ "\n\nToday\x27s Date: " ++ formatDateTime (clock "UTC"))
              "gpt-4.1-mini" [] []]) := by
  constructor
  · have hok := @createAgentRecursive_ok s ctx clock slug [] r (by simp) hf
    refine ⟨_, hok, ?_⟩
    have hb := height_le_distinctUnvisited (distinctUnvisited s []) slug []
      _ (le_refl _) hok
    have hle : distinctUnvisited s [] ≤ (slugPool s).length :=
      List.length_filter_le _ _
    omega
  · have hcirc : createAgentRecursive cycleStore ctx1 clock "a" ["b", "a"]
        = .error (.circular "a") := createAgentRecursive_circular (by simp)
    have hb : createAgentRecursive cycleStore ctx1 clock "b" ["a"]
        = .ok (ExecAgent.mk "B"
            ("PB" ++ "\n\nToday\x27s Date: " ++ formatDateTime (clock "UTC"))
            "gpt-4.1-mini" [] []) := by
      rw [@createAgentRecursive_ok cycleStore ctx1 clock "b" ["a"]
        ⟨2, 1, "b", "B", "PB"⟩ (by simp) rfl]
      rw [show (listHandoffs cycleStore 2).map (fun h => h.slug) = ["a"] from rfl]
      rw [buildHandoffList_cons_error hcirc, buildHandoffList_nil]
      rfl
    unfold createAgent
    rw [@createAgentRecursive_ok cycleStore ctx1 clock "a" []
      ⟨1, 1, "a", "A", "PA"⟩ (by simp) rfl]
    rw [show (listHandoffs cycleStore 1).map (fun h => h.slug) = ["b"] from rfl]
    rw [buildHandoffList_cons_ok hb, buildHandoffList_nil]
    rfl

/-- Witness for C2: the cycle store itself, with root slug `a` resolving. -/
theorem claim2_nonroot_cycle_recovery_witness :
    ∃ a, createAgent cycleStore ctx1 clock0 "a" = .ok a
      ∧ ExecAgent.height a ≤ (slugPool cycleStore).length :=
  (claim2_nonroot_cycle_recovery cycleStore ctx1 clock0 "a"
    ⟨1, 1, "a", "A", "PA"⟩ rfl).1

/-- C3, amended.  The lookup is owner-scoped (`WHERE user_id = $userId AND
slug = $slug`), so a slug that names only another owner's agent does not
resolve and the build fails with `NotFound`; the `Unauthorized` branch of
the factory is unreachable and no build ever returns it. -/
theorem claim3_ownership_scoping (s : Store) (ctx : UserCtx)
    (clock : String → DateParts) (slug : String) :
    ((¬ ∃ r, r ∈ s.agents ∧ r.user_id = ctx.id ∧ r.slug = slug) →
      createAgent s ctx clock slug = .error (.notFound slug))
    ∧ createAgent s ctx clock slug ≠ .error .unauthorized := by
  constructor
  · intro hno
    have hf : findBySlug s ctx.id slug = none := by
      apply List.find?_eq_none.mpr
      intro r hr hp
      have hp2 := of_decide_eq_true hp
      exact hno ⟨r, hr, hp2.1, hp2.2⟩
    exact createAgentRecursive_notFound (by simp) hf
  · intro he
    unfold createAgent at he
    cases hf : findBySlug s ctx.id slug with
    | none =>
      rw [createAgentRecursive_notFound (by simp) hf] at he
      simp at he
    | some r =>
      rw [createAgentRecursive_ok (by simp) hf] at he
      cases he

/-- Witness for C3: user 1 requesting the slug that only user 2 owns. -/
theorem claim3_ownership_scoping_witness :
    createAgent otherOwnerStore ctx1 clock0 "a" = .error (.notFound "a") :=
  (claim3_ownership_scoping otherOwnerStore ctx1 clock0 "a").1 (by decide)

/-- C3 counterexample: slug `a` names an agent owned by user 2, yet user 1's
build fails with `NotFound`, not with the `Unauthorized` the claim states. -/
theorem claim3_counterexample :
    (∃ r, r ∈ otherOwnerStore.agents ∧ r.slug = "a" ∧ r.user_id ≠ 1)
    ∧ createAgent otherOwnerStore ctx1 clock0 "a" = .error (.notFound "a")
    ∧ createAgent otherOwnerStore ctx1 clock0 "a" ≠ .error .unauthorized := by
  refine ⟨⟨⟨1, 2, "a", "A", "P"⟩, by decide, rfl, by decide⟩, ?_, ?_⟩
  · exact @createAgentRecursive_notFound otherOwnerStore ctx1 clock0 "a" []
      (by simp) rfl
  · intro he
    unfold createAgent at he
    rw [@createAgentRecursive_notFound otherOwnerStore ctx1 clock0 "a" []
      (by simp) rfl] at he
    simp at he

/-- C4.  For the diamond `a → {b, c}`, `b → d`, `c → d`, the build succeeds
and resolves `d` independently on each branch: both the `B` child and the
`C` child carry their own fully built `D` sub-tree (neither branch is
pruned, which is what a shared — rather than branch-copied — visited set
would cause).  Object identity is beyond a value model; structural
independence shows up as the two separately resolved `D` sub-trees. -/
theorem claim4_diamond_independent_resolution (clock : String → DateParts) :
    createAgent diamondStore ctx1 clock "a"
      = .ok (ExecAgent.mk "A"
          ("PA" ++ "\n\nToday\x27s Date: " ++ formatDateTime (clock "UTC"))
          "gpt-4.1-mini" []
          [ExecAgent.mk "B"
            ("PB" ++ "\n\nToday\x27s Date: " ++ formatDateTime (clock "UTC"))
            "gpt-4.1-mini" []
            [ExecAgent.mk "D"
              ("PD" ++ "\n\nToday\x27s Date: " ++ formatDateTime (clock "UTC"))
              "gpt-4.1-mini" [] []],
          ExecAgent.mk "C"
            ("PC" ++ "\n\nToday\x27s Date: " ++ formatDateTime (clock "UTC"))
            "gpt-4.1-mini" []
            [ExecAgent.mk "D"
              ("PD" ++ "\n\nToday\x27s Date: " ++ formatDateTime (clock "UTC"))
              "gpt-4.1-mini" [] []]]) := by
  have hd1 : createAgentRecursive diamondStore ctx1 clock "d" ["b", "a"]
      = .ok (ExecAgent.mk "D"
          ("PD" ++ "\n\nToday\x27s Date: " ++ formatDateTime (clock "UTC"))
          "gpt-4.1-mini" [] []) := by
    rw [@createAgentRecursive_ok diamondStore ctx1 clock "d" ["b", "a"]
      ⟨4, 1, "d", "D", "PD"⟩ (by simp) rfl]
    rw [show (listHandoffs diamondStore 4).map (fun h => h.slug) = [] from rfl]
    rw [buildHandoffList_nil]
    rfl
  have hd2 : createAgentRecursive diamondStore ctx1 clock "d" ["c", "a"]
      = .ok (ExecAgent.mk "D"
          ("PD" ++ "\n\nToday\x27s Date: " ++ formatDateTime (clock "UTC"))
          "gpt-4.1-mini" [] []) := by
    rw [@createAgentRecursive_ok diamondStore ctx1 clock "d" ["c", "a"]
      ⟨4, 1, "d", "D", "PD"⟩ (by simp) rfl]
    rw [show (listHandoffs diamondStore 4).map (fun h => h.slug) = [] from rfl]
    rw [buildHandoffList_nil]
    rfl
  have hb : createAgentRecursive diamondStore ctx1 clock "b" ["a"]
      = .ok (ExecAgent.mk "B"
          ("PB" ++ "\n\nToday\x27s Date: " ++ formatDateTime (clock "UTC"))
          "gpt-4.1-mini" []
          [ExecAgent.mk "D"
            ("PD" ++ "\n\nToday\x27s Date: " ++ formatDateTime (clock "UTC"))
            "gpt-4.1-mini" [] []]) := by
    rw [@createAgentRecursive_ok diamondStore ctx1 clock "b" ["a"]
      ⟨2, 1, "b", "B", "PB"⟩ (by simp) rfl]
    rw [show (listHandoffs diamondStore 2).map (fun h => h.slug) = ["d"] from rfl]
    rw [buildHandoffList_cons_ok hd1, buildHandoffList_nil]
    rfl
  have hc : createAgentRecursive diamondStore ctx1 clock "c" ["a"]
      = .ok (ExecAgent.mk "C"
          ("PC" ++ "\n\nToday\x27s Date: " ++ formatDateTime (clock "UTC"))
          "gpt-4.1-mini" []
          [ExecAgent.mk "D"
            ("PD" ++ "\n\nToday\x27s Date: " ++ formatDateTime (clock "UTC"))
            "gpt-4.1-mini" [] []]) := by
    rw [@createAgentRecursive_ok diamondStore ctx1 clock "c" ["a"]
      ⟨3, 1, "c", "C", "PC"⟩ (by simp) rfl]
    rw [show (listHandoffs diamondStore 3).map (fun h => h.slug) = ["d"] from rfl]
    rw [buildHandoffList_cons_ok hd2, buildHandoffList_nil]
    rfl
  unfold createAgent
  rw [@createAgentRecursive_ok diamondStore ctx1 clock "a" []
    ⟨1, 1, "a", "A", "PA"⟩ (by simp) rfl]
  rw [show (listHandoffs diamondStore 1).map (fun h => h.slug) = ["b", "c"]
    from rfl]
  rw [buildHandoffList_cons_ok hb, buildHandoffList_cons_ok hc,
    buildHandoffList_nil]
  rfl

/-- C5, amended.  The concrete tool list of every built agent is exactly:
the built-in capability tools — where only the `internet_search` tag yields
a tool (`memory` is recognized but produces nothing, a TODO in the source) —
followed by the MCP tool bindings resolved against the owner's server list
in stored reference order, a missing server config being skipped with a
warning.  No peer-agent-as-tool bindings are attached: the repository can
list `agent_agent_tools` rows, but the factory never consumes them. -/
theorem claim5_tool_resolution (s : Store) (ctx : UserCtx)
    (clock : String → DateParts) (slug : String) (visited : List String)
    (r : AgentRow) (a : ExecAgent)
    (hf : findBySlug s ctx.id slug = some r)
    (h : createAgentRecursive s ctx clock slug visited = .ok a) :
    ExecAgent.tools a
      = (if (listBuiltInTools s r.id).contains "internet_search"
          then [AgentTool.webSearch] else [])
        ++ resolveMcpTools (listMcpTools s r.id) (listMcpServersByUser s ctx.id) := by
  rcases createAgentRecursive_ok_inversion h with ⟨hv, r2, hf2, ha⟩
  rw [hf] at hf2
  injection hf2 with h2
  subst h2
  rw [ha, ExecAgent.tools]

/-- Witness for C5: the amended tool list at the peer-tool store. -/
theorem claim5_tool_resolution_witness :
    ExecAgent.tools (ExecAgent.mk "A"
        ("P" ++ "\n\nToday\x27s Date: " ++ formatDateTime (clock0 "UTC"))
        "gpt-4.1-mini" [] [])
      = (if (listBuiltInTools peerToolStore 1).contains "internet_search"
          then [AgentTool.webSearch] else [])
        ++ resolveMcpTools (listMcpTools peerToolStore 1)
            (listMcpServersByUser peerToolStore 1) := by
  apply claim5_tool_resolution peerToolStore ctx1 clock0 "a" []
    ⟨1, 1, "a", "A", "P"⟩ _ rfl
  rw [@createAgentRecursive_ok peerToolStore ctx1 clock0 "a" []
    ⟨1, 1, "a", "A", "P"⟩ (by simp) rfl]
  rw [show (listHandoffs peerToolStore 1).map (fun h => h.slug) = [] from rfl]
  rw [buildHandoffList_nil]
  rfl

/-- C5 counterexample: agent `a` has a configured peer-agent tool (`b`) and
the enabled `memory` capability tag, yet its built tool list is empty — the
claimed third stage (peer-agent-as-tool bindings) and the per-enabled-tag
built-in stage are absent from the factory. -/
theorem claim5_counterexample :
    listAgentTools peerToolStore 1 = [⟨2, 1, "b", "B", "PB"⟩]
    ∧ listBuiltInTools peerToolStore 1 = ["memory"]
    ∧ createAgent peerToolStore ctx1 clock0 "a"
        = .ok (ExecAgent.mk "A"
            ("P" ++ "\n\nToday\x27s Date: " ++ formatDateTime (clock0 "UTC"))
            "gpt-4.1-mini" [] []) := by
  refine ⟨rfl, rfl, ?_⟩
  unfold createAgent
  rw [@createAgentRecursive_ok peerToolStore ctx1 clock0 "a" []
    ⟨1, 1, "a", "A", "P"⟩ (by simp) rfl]
  rw [show (listHandoffs peerToolStore 1).map (fun h => h.slug) = [] from rfl]
  rw [buildHandoffList_nil]
  rfl

/-- C6.  Feeding the raw sequence `[response_started,
output_text_delta("Hi"), output_text_delta(" there"), response_done]` to the
translator emits exactly `[started, text "Hi", text " there", stopped]` in
order, and the accumulated final assistant text is `"Hi there"`. -/
theorem claim6_raw_stream_translation :
    translateFeed [.rawModel .responseStarted,
      .rawModel (.outputTextDelta "Hi"),
      .rawModel (.outputTextDelta " there"),
      .rawModel .responseDone]
      = ([.started, .text "Hi", .text " there", .stopped], "Hi there") := rfl

/-- C7, amended.  A `handoff_requested` run item makes the translator emit a
`handoff` frame carrying the raw item's target name, but a
`handoff_occurred` item emits nothing client-visible — it is only logged on
the server console. -/
theorem claim7_handoff_events (targetName : String) :
    handleRunItemStreamEvent (.handoffRequested targetName)
        = [.handoff targetName]
    ∧ handleRunItemStreamEvent (.handoffOccurred targetName) = [] :=
  ⟨rfl, rfl⟩

/-- C7 counterexample: a `handoff_occurred` item for target `sales-agent`
produces zero emitted frames, refuting the claimed `handoffCompleted`
emission carrying the target name. -/
theorem claim7_counterexample :
    handleRunItemStreamEvent (.handoffOccurred "sales-agent") = []
    ∧ translateFeed [.runItem (.handoffOccurred "sales-agent")] = ([], "") :=
  ⟨rfl, rfl⟩

/-- Two persisted messages of conversation 5, both with structured payloads. -/
def convState0 : ConvRepoState :=
  ⟨[⟨0, 5, "user", "hi", some (.message "user" (.str "hi")), none⟩,
    ⟨1, 5, "assistant", "yo", some (.message "assistant" (.str "yo")), none⟩], 2⟩

/-- C8.  The final instructions of every built agent are the stored prompt
plus the appended `Today's Date:` string rendered from the clock reading of
the owner's timezone (taken fresh on the build, `UTC` when unset), and two
builds whose clock readings fall on different calendar days produce
different trailing date strings while the stored prefix is unchanged. -/
theorem claim8_instruction_augmentation (s : Store) (ctx : UserCtx)
    (clock : String → DateParts) (slug : String) (visited : List String)
    (r : AgentRow) (a : ExecAgent)
    (hf : findBySlug s ctx.id slug = some r)
    (h : createAgentRecursive s ctx clock slug visited = .ok a) :
    ExecAgent.instructions a
        = r.system_prompt ++ "\n\nToday\x27s Date: "
          ++ formatDateTime (clock (userTimezone ctx))
    ∧ (ctx.timezone = none → userTimezone ctx = "UTC")
    ∧ (∀ p1 p2 : DateParts,
        ¬ (p1.year = p2.year ∧ p1.month = p2.month ∧ p1.day = p2.day) →
        formatDateTime p1 ≠ formatDateTime p2) := by
  refine ⟨?_, ?_, ?_⟩
  · rcases createAgentRecursive_ok_inversion h with ⟨hv, r2, hf2, ha⟩
    rw [hf] at hf2
    injection hf2 with h2
    subst h2
    rw [ha, ExecAgent.instructions]
  · intro hz
    simp [userTimezone, hz]
  · intro p1 p2 hne
    exact formatDateTime_ne_of_date_ne hne

/-- Witness for C8: the instruction equation at a concrete build, plus the
day-sensitivity of the rendered date. -/
theorem claim8_instruction_augmentation_witness :
    ExecAgent.instructions (ExecAgent.mk "A"
        ("P" ++ "\n\nToday\x27s Date: " ++ formatDateTime (clock0 "UTC"))
        "gpt-4.1-mini" [] [])
      = "P" ++ "\n\nToday\x27s Date: " ++ formatDateTime (clock0 (userTimezone ctx1))
    ∧ (ctx1.timezone = none → userTimezone ctx1 = "UTC")
    ∧ (∀ p1 p2 : DateParts,
        ¬ (p1.year = p2.year ∧ p1.month = p2.month ∧ p1.day = p2.day) →
        formatDateTime p1 ≠ formatDateTime p2) := by
  apply claim8_instruction_augmentation peerToolStore ctx1 clock0 "a" []
    ⟨1, 1, "a", "A", "P"⟩ _ rfl
  rw [@createAgentRecursive_ok peerToolStore ctx1 clock0 "a" []
    ⟨1, 1, "a", "A", "P"⟩ (by simp) rfl]
  rw [show (listHandoffs peerToolStore 1).map (fun h => h.slug) = [] from rfl]
  rw [buildHandoffList_nil]
  rfl

/-- C9.  Appending exchange items and reading the context back round-trips:
the structured payloads returned equal the structured payloads stored (for
any item shapes, in particular text, tool-call and handoff items), and
reading fails explicitly on any persisted row without a structured payload
instead of reconstructing it from display text. -/
theorem claim9_roundtrip (st : ConvRepoState) (cid : Nat)
    (items xs : List AgentInputItem)
    (hok : DatabaseSession.getItems st cid none = .ok xs) :
    DatabaseSession.getItems (DatabaseSession.addItems st cid items) cid none
        = .ok (xs ++ items)
    ∧ (∀ st2 : ConvRepoState,
        (∃ m, m ∈ listMessages st2 cid ∧ m.raw_data = none) →
        ∃ e, DatabaseSession.getItems st2 cid none = .error e) := by
  constructor
  · have hadd := mapToItems_addItems cid items st
    unfold DatabaseSession.getItems at hok ⊢
    cases hbase : DatabaseSession.mapToItems (listMessages st cid) with
    | error e =>
      rw [hbase] at hok
      cases hok
    | ok ys =>
      rw [hbase] at hok
      injection hok with h2
      have hadd2 : DatabaseSession.mapToItems
          (listMessages (DatabaseSession.addItems st cid items) cid)
          = .ok (ys ++ items) := by
        rw [hadd, hbase]
      rw [hadd2, ← h2]
  · intro st2 hex
    rcases mapToItems_error_of_missing_payload hex with ⟨e, he⟩
    refine ⟨e, ?_⟩
    unfold DatabaseSession.getItems
    rw [he]

/-- Witness for C9: round-trip of a text item, a multi-part text item, a
tool-call item and a handoff-shaped item appended to an empty conversation. -/
theorem claim9_roundtrip_witness :
    DatabaseSession.getItems
        (DatabaseSession.addItems ⟨[], 0⟩ 7
          [.message "user" (.str "hi"),
           .message "assistant" (.parts [.textPart "a", .otherPart "image"]),
           .hostedToolCall "search",
           .otherItem "handoff_call"]) 7 none
      = .ok ([] ++
          [.message "user" (.str "hi"),
           .message "assistant" (.parts [.textPart "a", .otherPart "image"]),
           .hostedToolCall "search",
           .otherItem "handoff_call"]) :=
  (claim9_roundtrip ⟨[], 0⟩ 7
    [.message "user" (.str "hi"),
     .message "assistant" (.parts [.textPart "a", .otherPart "image"]),
     .hostedToolCall "search",
     .otherItem "handoff_call"] [] rfl).1

/-- C10.  A `getItems` limit of zero or a negative number is not applied:
the entire history is returned in order, exactly as with no limit — the
truncation runs only for a strictly positive limit.  This holds for both
adapter versions (the plain one and the structured-payload one). -/
theorem claim10_nonpositive_limit (st : ConvRepoState) (cid : Nat) (l : Int)
    (hl : l ≤ 0) :
    DatabaseSessionSimple.getItems st cid (some l)
        = (listMessages st cid).map (fun m => ⟨m.role, m.content⟩)
    ∧ DatabaseSession.getItems st cid (some l)
        = DatabaseSession.getItems st cid none := by
  have hnot : ¬ l > 0 := by omega
  constructor
  · unfold DatabaseSessionSimple.getItems
    simp [hnot]
  · unfold DatabaseSession.getItems
    cases h : DatabaseSession.mapToItems (listMessages st cid) with
    | error e => rfl
    | ok items => simp [hnot]

/-- Witness for C10: a zero limit on a two-message conversation returns the
full history. -/
theorem claim10_nonpositive_limit_witness :
    DatabaseSessionSimple.getItems convState0 5 (some 0)
        = (listMessages convState0 5).map (fun m => ⟨m.role, m.content⟩)
    ∧ DatabaseSession.getItems convState0 5 (some 0)
        = DatabaseSession.getItems convState0 5 none :=
  claim10_nonpositive_limit convState0 5 0 (by decide)
